import Mathlib

/-!
Verification development for the TMDb → Snowflake ingestion pipeline
(`src/extract.py`, `src/load.py`, `src/main.py`).

The Python modules are shallowly embedded below:

* Records (parsed JSON movie dicts) are modelled as `Movie` values carrying an
  optional integer identifier (`movie.get("id")` may be absent) and an opaque
  payload standing for the remaining fields.
* The HTTP layer (`TMDbExtractor._get` and its tenacity decorator
  `retry(stop=stop_after_attempt(5), wait=wait_exponential(multiplier=1, min=1,
  max=30), retry=retry_if_exception_type((Timeout, ConnectionError,
  TMDbAPIError)))`) is modelled by `tmdbGet` over a script of per-attempt
  outcomes.  tenacity with the default `reraise=False` raises `RetryError`
  after the attempt ceiling, and re-raises the original exception unchanged
  when the retry predicate rejects it; both paths are modelled in `Raised`.
* The Snowflake tables are modelled as ordered lists of rows; the per-row
  `MERGE` statement of `load_movies` becomes `mergeRow`, and the append-only
  `INSERT` of `load_genres` becomes a list append.
* `run_pipeline` of `src/main.py` is modelled as `run_pipeline`, producing the
  same statistics dictionary (time-valued entries are modelled as `0`).
-/

/-- A raw movie dict: `id` is `movie.get("id")` (absent = `none`), `payload`
stands for all remaining JSON fields. -/
structure Movie where
  id : Option Nat
  payload : Nat
deriving DecidableEq, Repr

/-- One response page of the listing endpoint `/movie/popular`:
`results` and `total_pages` of the parsed JSON body. -/
structure ListPage where
  results : List Movie
  total_pages : Nat
deriving DecidableEq, Repr

/-- A genre entry of the reference list (opaque). -/
abbrev Genre := Nat

/-- The Python exception classes that can arise inside `_get`'s body:
`requests.Timeout`, `requests.ConnectionError`, `TMDbAPIError` (raised for 429
and for 5xx) and `ValueError` (raised for other 4xx). -/
inductive PyExc where
  | timeout
  | connectionError
  | tmdbApiError
  | valueError
deriving DecidableEq, Repr

/-- What a decorated `_get` call can raise to its caller: an original
exception (when tenacity's retry predicate rejects it), or
`tenacity.RetryError` (after the attempt ceiling, default `reraise=False`). -/
inductive Raised where
  | exc (e : PyExc)
  | retryError
deriving DecidableEq, Repr

/-- One simulated attempt outcome of the HTTP session: a response with a
status code and parsed body, or a transport-level failure. -/
inductive Outcome where
  | response (code : Nat) (body : Movie)
  | timeout
  | connFail
deriving DecidableEq, Repr

/-- `retry_if_exception_type((requests.Timeout, requests.ConnectionError,
TMDbAPIError))`: which exceptions tenacity retries. -/
def retryableExc : PyExc → Bool
  | .timeout => true
  | .connectionError => true
  | .tmdbApiError => true
  | .valueError => false

/-- The body of `TMDbExtractor._get` on one attempt: 429 → `TMDbAPIError`,
status ≥ 500 → `TMDbAPIError`, other status ≥ 400 → `ValueError`, transport
errors propagate, otherwise the parsed body is returned. -/
def classifyAttempt : Outcome → Except PyExc Movie
  | .response c body =>
      if c = 429 then .error .tmdbApiError
      else if 500 ≤ c then .error .tmdbApiError
      else if 400 ≤ c then .error .valueError
      else .ok body
  | .timeout => .error .timeout
  | .connFail => .error .connectionError

/-- The tenacity retry loop around `_get`.  `attempt` is the 1-based attempt
number, `fuel` the number of further attempts `stop_after_attempt` still
allows (`fuel = 0` is the attempt on which the stop condition halts).  Each
arm classifies the current attempt's outcome: success returns, an exception
the retry predicate rejects is re-raised as-is, a retryable exception leads
to another attempt — or, with no fuel left, to `RetryError` (`reraise` is left
at its default `False`).  Returns the call's result together with the number
of attempts actually issued. -/
def getAttempts (script : Nat → Outcome) (attempt : Nat) : Nat → Except Raised Movie × Nat
  | 0 =>
    match classifyAttempt (script attempt) with
    | .ok m => (.ok m, attempt)
    | .error e =>
      if retryableExc e then (.error .retryError, attempt)
      else (.error (.exc e), attempt)
  | fuel + 1 =>
    match classifyAttempt (script attempt) with
    | .ok m => (.ok m, attempt)
    | .error e =>
      if retryableExc e then getAttempts script (attempt + 1) fuel
      else (.error (.exc e), attempt)

/-- `TMDbExtractor._get` with its decorator `stop=stop_after_attempt(5)`:
first attempt number 1, at most 4 further attempts. -/
def tmdbGet (script : Nat → Outcome) : Except Raised Movie × Nat :=
  getAttempts script 1 4

/-- tenacity's `wait_exponential(multiplier, max, exp_base := 2, min)`:
`max(max(0, min), min(multiplier * 2 ^ (attempt_number - 1), max))` — a fixed,
jitter-free delay (per tenacity's own documentation of this strategy). -/
def wait_exponential (multiplier mn mx attempt : Nat) : Nat :=
  Nat.max (Nat.max 0 mn) (Nat.min (multiplier * 2 ^ (attempt - 1)) mx)

/-- The backoff configured on `_get`: `wait_exponential(multiplier=1, min=1,
max=30)`. -/
def compute_backoff (attempt : Nat) : Nat :=
  wait_exponential 1 1 30 attempt

/-- Python truthiness override `pages or self.config.pages_to_fetch` used by
both `extract_popular_movies` and `run_pipeline`: `None` and `0` are replaced
by the configured default. -/
def pagesToFetch (pages : Option Nat) (cfgPages : Nat) : Nat :=
  match pages with
  | none => cfgPages
  | some p => if p = 0 then cfgPages else p

/-- The pagination loop of `extract_popular_movies`: starting at `page`, with
`remaining` loop iterations left (`for page in range(1, pages_to_fetch + 1)`),
fetch the page and stop early once `page >= total_pages`.  Returns the pages
fetched (page number paired with the server's response, in fetch order). -/
def popularFetch (server : Nat → ListPage) (page remaining : Nat) : List (Nat × ListPage) :=
  match remaining with
  | 0 => []
  | r + 1 =>
    let pg := server page
    (page, pg) :: (if pg.total_pages ≤ page then [] else popularFetch server (page + 1) r)

/-- The page numbers actually requested by `extract_popular_movies`. -/
def requestedPages (server : Nat → ListPage) (pages : Option Nat) (cfgPages : Nat) : List Nat :=
  (popularFetch server 1 (pagesToFetch pages cfgPages)).map Prod.fst

/-- The flat item stream yielded by `extract_popular_movies`. -/
def extract_popular_movies (server : Nat → ListPage) (pages : Option Nat) (cfgPages : Nat) :
    List Movie :=
  ((popularFetch server 1 (pagesToFetch pages cfgPages)).map (fun p => p.2.results)).flatten

/-- The handler `except (ValueError, TMDbAPIError)` in
`extract_movies_with_details`: which raised errors it catches.
`tenacity.RetryError` and transport exceptions are not in the tuple. -/
def caughtByHandler : Raised → Bool
  | .exc .valueError => true
  | .exc .tmdbApiError => true
  | .exc .timeout => false
  | .exc .connectionError => false
  | .retryError => false

/-- The enrichment loop of `extract_movies_with_details` over the list-level
item stream.  `seen` is the `seen_ids` set (insertion happens before the
`try`).  Returns `(yielded details, detail keys fetched in order, abort)`:
`abort = some e` means the generator terminated by raising `e` (an uncaught
per-item error) after the yields so far. -/
def detailsGo (detailOf : Option Nat → Except Raised Movie) :
    List Movie → List (Option Nat) → List Movie × List (Option Nat) × Option Raised
  | [], _ => ([], [], none)
  | s :: rest, seen =>
    if s.id ∈ seen then
      detailsGo detailOf rest seen
    else
      match detailOf s.id with
      | .ok d =>
        let r := detailsGo detailOf rest (s.id :: seen)
        (d :: r.1, s.id :: r.2.1, r.2.2)
      | .error e =>
        if caughtByHandler e then
          let r := detailsGo detailOf rest (s.id :: seen)
          (r.1, s.id :: r.2.1, r.2.2)
        else
          ([], [s.id], some e)

/-- `extract_movies_with_details`: list stream → dedup by `seen_ids` → detail
fetch per fresh identifier, yielding details; `detailOf` is the result of
`extract_movie_detail` (a `_get` call) for a given key. -/
def extract_movies_with_details (server : Nat → ListPage)
    (detailOf : Option Nat → Except Raised Movie) (pages : Option Nat) (cfgPages : Nat) :
    List Movie × List (Option Nat) × Option Raised :=
  detailsGo detailOf (extract_popular_movies server pages cfgPages) []

/-- One row of `BRONZE.RAW_MOVIES` (`source_url` is the constant template
string, modelled as `0`). -/
structure MovieRow where
  movie_id : Nat
  raw_data : Movie
  source_url : Nat
  ingested_at : Nat
  batch_id : Nat
deriving DecidableEq, Repr

/-- One row of `BRONZE.RAW_GENRES`: the whole reference list as one payload. -/
structure GenreRow where
  raw_data : List Genre
  ingested_at : Nat
  batch_id : Nat
deriving DecidableEq, Repr

/-- The list-comprehension guard `if movie.get("id")` in `load_movies`:
Python truthiness of the identifier (absent and `0` are falsy). -/
def hasUsableId (m : Movie) : Bool :=
  match m.id with
  | none => false
  | some n => n ≠ 0

/-- The `MERGE INTO BRONZE.RAW_MOVIES` statement for one source row, keyed
`ON target.MOVIE_ID = source.movie_id`: matched rows are overwritten with the
source row's payload/url/time/run-id, otherwise the row is inserted. -/
def mergeRow (t : List MovieRow) (r : MovieRow) : List MovieRow :=
  if t.any (fun row => row.movie_id = r.movie_id) then
    t.map (fun row => if row.movie_id = r.movie_id then r else row)
  else
    t ++ [r]

/-- The parameter tuples built for one batch in `load_movies`: records whose
identifier is not truthy are dropped. -/
def movieRows (ing bid : Nat) (batch : List Movie) : List MovieRow :=
  (batch.filter hasUsableId).map (fun m => ⟨m.id.getD 0, m, 0, ing, bid⟩)

/-- The inner per-row loop of `load_movies`: execute the merge for each row,
incrementing `total_loaded`. -/
def loadRowsStep (st : List MovieRow × Nat) (r : MovieRow) : List MovieRow × Nat :=
  (mergeRow st.1 r, st.2 + 1)

/-- The batch loop of `load_movies` (`for batch_start in range(0, len(movies),
batch_size)`), with `fuel` bounding the number of iterations. -/
def load_movies_go (ing bid bs : Nat) : Nat → List Movie → List MovieRow × Nat → List MovieRow × Nat
  | 0, _, st => st
  | _, [], st => st
  | fuel + 1, ms, st =>
    let st' := (movieRows ing bid (ms.take bs)).foldl loadRowsStep st
    load_movies_go ing bid bs fuel (ms.drop bs) st'

/-- `SnowflakeLoader.load_movies(movies, batch_size)` against landing table
`t`, with this run's `ingested_at`/`batch_id`.  Returns the table after all
merges and the returned `total_loaded`. -/
def load_movies (movies : List Movie) (ing bid bs : Nat) (t : List MovieRow) :
    List MovieRow × Nat :=
  if movies = [] then (t, 0)
  else load_movies_go ing bid bs movies.length movies (t, 0)

/-- `SnowflakeLoader.load_genres(genres)` against snapshot table `t`: empty
input is a no-op returning 0; otherwise one row holding the whole list is
appended (plain `INSERT`, never merged) and 1 is returned. -/
def load_genres (genres : List Genre) (ing bid : Nat) (t : List GenreRow) :
    List GenreRow × Nat :=
  if genres = [] then (t, 0)
  else (t ++ [⟨genres, ing, bid⟩], 1)

/-- The `stats` dict built by `run_pipeline` in `src/main.py` (time-valued
entries modelled as `0`). -/
structure RunStats where
  start_time : Nat
  pages_fetched : Nat
  movies_extracted : Nat
  genres_extracted : Nat
  movies_loaded : Nat
  genres_loaded : Nat
  errors : Nat
  duration_seconds : Nat
deriving DecidableEq, Repr

/-- `run_pipeline(pages, dry_run)` of `src/main.py`: extract the genre list
(modelled as the given `genres`), stream `extract_movies_with_details`
(an uncaught per-item error propagates and fails the run), then unless
`dry_run` load genres and movies and return the statistics dict together with
the final landing and snapshot tables. -/
def run_pipeline (genres : List Genre) (server : Nat → ListPage)
    (detailOf : Option Nat → Except Raised Movie)
    (pages : Option Nat) (cfgPages bs : Nat) (dryRun : Bool)
    (ing bid : Nat) (movieT : List MovieRow) (genreT : List GenreRow) :
    Except Raised (RunStats × List MovieRow × List GenreRow) :=
  let ptf := pagesToFetch pages cfgPages
  let ext := extract_movies_with_details server detailOf (some ptf) cfgPages
  match ext.2.2 with
  | some e => .error e
  | none =>
    let movies := ext.1
    let stats0 : RunStats :=
      { start_time := 0, pages_fetched := ptf, movies_extracted := movies.length,
        genres_extracted := genres.length, movies_loaded := 0, genres_loaded := 0,
        errors := 0, duration_seconds := 0 }
    if dryRun then .ok (stats0, movieT, genreT)
    else
      let g := load_genres genres ing bid genreT
      let m := load_movies movies ing bid bs movieT
      .ok ({ stats0 with movies_loaded := m.2, genres_loaded := g.2 }, m.1, g.1)

example :
    tmdbGet (fun _ => .response 404 ⟨some 1, 0⟩) = (.error (.exc .valueError), 1) := by rfl

example :
    tmdbGet (fun _ => .response 500 ⟨some 1, 0⟩) = (.error .retryError, 5) := by rfl

example :
    tmdbGet (fun n => if n ≤ 3 then .timeout else .response 200 ⟨some 1, 7⟩) =
      (.ok ⟨some 1, 7⟩, 4) := by rfl

/-- Which first-attempt outcomes make the decorated `_get` retry: exactly the
outcomes whose classification raises an exception of a retryable type. -/
def retryableOutcome (o : Outcome) : Bool :=
  match classifyAttempt o with
  | .ok _ => false
  | .error e => retryableExc e

/-- The retry loop never issues more attempts than `attempt + fuel`. -/
theorem getAttempts_snd_le (script : Nat → Outcome) :
    ∀ fuel attempt, (getAttempts script attempt fuel).2 ≤ attempt + fuel := by
  intro fuel
  induction fuel with
  | zero =>
    intro attempt
    simp only [getAttempts]
    cases classifyAttempt (script attempt) with
    | ok m => simp
    | error e => cases he : retryableExc e <;> simp [he]
  | succ f ih =>
    intro attempt
    simp only [getAttempts]
    cases classifyAttempt (script attempt) with
    | ok m => simp
    | error e =>
      cases he : retryableExc e
      · simp [he]
      · simp only [he, if_true]
        have := ih (attempt + 1)
        omega

/-- `_get` issues at most 5 attempts in total. -/
theorem tmdbGet_attempts_le (script : Nat → Outcome) : (tmdbGet script).2 ≤ 5 :=
  getAttempts_snd_le script 4 1

/-- If the decorated `_get` issued a second attempt at all, the first
attempt's outcome was of a retryable kind. -/
theorem tmdbGet_retry_needs_retryable (script : Nat → Outcome)
    (h : 2 ≤ (tmdbGet script).2) : retryableOutcome (script 1) = true := by
  cases hc : classifyAttempt (script 1) with
  | ok m =>
    exfalso
    have h1 : (tmdbGet script).2 = 1 := by
      unfold tmdbGet
      simp [getAttempts, hc]
    omega
  | error e =>
    cases he : retryableExc e with
    | true =>
      unfold retryableOutcome
      rw [hc]
      exact he
    | false =>
      exfalso
      have h1 : (tmdbGet script).2 = 1 := by
        unfold tmdbGet
        simp [getAttempts, hc, he]
      omega
/-- C4: for every HTTP response with status in 400–499 other than 429 on the
first attempt, `_get` raises the fault (`ValueError`) on that very first
attempt with no retry; attempts never exceed the 5-attempt ceiling; a second
attempt happens only when the first outcome is retryable, and the retryable
outcomes are exactly timeouts, connection failures, 429 and status ≥ 500. -/
theorem c4_client_errors_never_retried (script : Nat → Outcome) (c : Nat) (b : Movie)
    (h1 : script 1 = .response c b) (h400 : 400 ≤ c) (h500 : c < 500) (h429 : c ≠ 429) :
    tmdbGet script = (.error (.exc .valueError), 1)
    ∧ (∀ g : Nat → Outcome, (tmdbGet g).2 ≤ 5)
    ∧ (∀ g : Nat → Outcome, 2 ≤ (tmdbGet g).2 → retryableOutcome (g 1) = true)
    ∧ (∀ (c' : Nat) (b' : Movie),
        retryableOutcome (.response c' b') = true ↔ (c' = 429 ∨ 500 ≤ c'))
    ∧ retryableOutcome .timeout = true ∧ retryableOutcome .connFail = true := by
  have hc : classifyAttempt (script 1) = .error .valueError := by
    rw [h1]
    simp only [classifyAttempt]
    rw [if_neg h429, if_neg (by omega), if_pos h400]
  refine ⟨?_, tmdbGet_attempts_le, tmdbGet_retry_needs_retryable, ?_, rfl, rfl⟩
  · unfold tmdbGet
    simp [getAttempts, hc, retryableExc]
  · intro c' b'
    unfold retryableOutcome classifyAttempt
    by_cases hc429 : c' = 429 <;> by_cases hc500 : 500 ≤ c' <;>
      by_cases hc400 : 400 ≤ c' <;> simp [hc429, hc500, hc400, retryableExc]

/-- Witness for `c4_client_errors_never_retried` at a concrete 404 script. -/
theorem c4_client_errors_never_retried_witness :
    tmdbGet (fun _ => .response 404 ⟨none, 0⟩) = (.error (.exc .valueError), 1)
    ∧ (∀ g : Nat → Outcome, (tmdbGet g).2 ≤ 5)
    ∧ (∀ g : Nat → Outcome, 2 ≤ (tmdbGet g).2 → retryableOutcome (g 1) = true)
    ∧ (∀ (c' : Nat) (b' : Movie),
        retryableOutcome (.response c' b') = true ↔ (c' = 429 ∨ 500 ≤ c'))
    ∧ retryableOutcome .timeout = true ∧ retryableOutcome .connFail = true :=
  c4_client_errors_never_retried (fun _ => .response 404 ⟨none, 0⟩) 404 ⟨none, 0⟩
    rfl (by decide) (by decide) (by decide)

/-- Closed form of the configured backoff:
`max(1, min(2^(attempt-1), 30))`. -/
theorem compute_backoff_closed (k : Nat) :
    compute_backoff k = Nat.max 1 (Nat.min (2 ^ (k - 1)) 30) := by
  unfold compute_backoff wait_exponential
  have h01 : Nat.max 0 1 = 1 := by decide
  rw [Nat.one_mul, h01]

/-- C7 (code evaluated at its configuration): the configured backoff
`wait_exponential(multiplier=1, min=1, max=30)` yields the deterministic
delays 1, 2, 4, 8, 16 seconds for attempts 1–5, is clamped to [1, 30], and
doubles until the 30-second cap — there is no random jitter term anywhere in
this model because tenacity's `wait_exponential` is jitter-free by
construction. -/
theorem c7_backoff_deterministic_shape :
    (compute_backoff 1 = 1 ∧ compute_backoff 2 = 2 ∧ compute_backoff 3 = 4
      ∧ compute_backoff 4 = 8 ∧ compute_backoff 5 = 16)
    ∧ (∀ k, 1 ≤ compute_backoff k ∧ compute_backoff k ≤ 30)
    ∧ (∀ k, compute_backoff (k + 2) = Nat.min (2 * compute_backoff (k + 1)) 30)
    ∧ (∀ k, compute_backoff k = Nat.max 1 (Nat.min (2 ^ (k - 1)) 30)) := by
  refine ⟨by decide, ?_, ?_, compute_backoff_closed⟩
  · intro k
    rw [compute_backoff_closed]
    refine ⟨Nat.le_max_left 1 _, Nat.max_le.mpr ⟨by norm_num, Nat.min_le_right _ 30⟩⟩
  · intro k
    rw [compute_backoff_closed, compute_backoff_closed]
    have e1 : k + 2 - 1 = k + 1 := rfl
    have e2 : k + 1 - 1 = k := rfl
    rw [e1, e2, pow_succ]
    have h1 : 1 ≤ (2 : Nat) ^ k := Nat.one_le_two_pow
    simp only [Nat.min_def, Nat.max_def]
    split_ifs <;> omega

/-- C3 (code evaluated at the failing input): with a single listing page
`[{id:1}, {id:2}]` and a detail endpoint answering HTTP 500 on every attempt
for id 1, the retry-exhausted failure surfaces as `tenacity.RetryError`,
which the handler `except (ValueError, TMDbAPIError)` does not catch: the
stream aborts having yielded nothing, and id 2 is never fetched.  By
contrast a non-retryable 404 (`ValueError`) for id 1 is caught and the
stream continues with id 2.  Exhaustion is reached after exactly 5
attempts. -/
theorem c3_retry_exhausted_aborts_stream :
    extract_movies_with_details (fun _ => ⟨[⟨some 1, 0⟩, ⟨some 2, 0⟩], 1⟩)
        (fun k => if k = some 1 then (tmdbGet (fun _ => .response 500 ⟨some 1, 0⟩)).1
                  else .ok ⟨k, 5⟩) (some 1) 20
      = ([], [some 1], some .retryError)
    ∧ extract_movies_with_details (fun _ => ⟨[⟨some 1, 0⟩, ⟨some 2, 0⟩], 1⟩)
        (fun k => if k = some 1 then (tmdbGet (fun _ => .response 404 ⟨some 1, 0⟩)).1
                  else .ok ⟨k, 5⟩) (some 1) 20
      = ([⟨some 2, 5⟩], [some 1, some 2], none)
    ∧ tmdbGet (fun _ => .response 500 ⟨some 1, 0⟩) = (.error .retryError, 5) :=
  ⟨rfl, rfl, rfl⟩
/-- When the listing endpoint reports a uniform `total_pages = T`, the
pagination loop starting at `page` with `remaining` iterations left fetches
exactly the pages `page, page+1, …` bounded both by the remaining iteration
budget and by `T` — except that the page it starts on is always fetched,
because the stop check runs only after a fetch. -/
theorem popularFetch_const (server : Nat → ListPage) (T : Nat)
    (hT : ∀ p, (server p).total_pages = T) :
    ∀ rem page, popularFetch server page rem =
      (List.range' page (Nat.min rem (Nat.max (T + 1 - page) 1))).map
        (fun p => (p, server p)) := by
  intro rem
  induction rem with
  | zero =>
    intro page
    simp [popularFetch, Nat.min_def]
  | succ r ih =>
    intro page
    simp only [popularFetch, hT]
    by_cases hle : T ≤ page
    · rw [if_pos hle]
      have hmin : Nat.min (r + 1) (Nat.max (T + 1 - page) 1) = 1 := by
        simp only [Nat.min_def, Nat.max_def]
        split_ifs <;> omega
      rw [hmin]
      rfl
    · rw [if_neg hle, ih (page + 1)]
      have h1 : Nat.min (r + 1) (Nat.max (T + 1 - page) 1)
          = Nat.min r (Nat.max (T + 1 - (page + 1)) 1) + 1 := by
        simp only [Nat.min_def, Nat.max_def]
        split_ifs <;> omega
      rw [h1, List.range'_succ]
      simp
/-- C5 (amended): for a uniformly reported `total_pages = T` and a requested
`page_limit = L ≥ 1`, `extract_popular_movies` requests exactly the pages
`1, 2, …, min(L, max(T, 1))` in increasing order and then stops, and the
yielded stream is the concatenation of exactly those pages' results.  (The
`max(·, 1)` is forced: page 1 is always requested, the stop check runs after
the fetch.) -/
theorem c5_pagination_bound (server : Nat → ListPage) (T L cfg : Nat)
    (hT : ∀ p, (server p).total_pages = T) (hL : 1 ≤ L) :
    requestedPages server (some L) cfg = List.range' 1 (Nat.min L (Nat.max T 1))
    ∧ (requestedPages server (some L) cfg).length = Nat.min L (Nat.max T 1)
    ∧ extract_popular_movies server (some L) cfg
        = ((List.range' 1 (Nat.min L (Nat.max T 1))).map
            (fun p => (server p).results)).flatten := by
  have hLz : pagesToFetch (some L) cfg = L := by
    show (if L = 0 then cfg else L) = L
    rw [if_neg (by omega)]
  have hfetch : popularFetch server 1 L
      = (List.range' 1 (Nat.min L (Nat.max T 1))).map (fun p => (p, server p)) := by
    have h := popularFetch_const server T hT L 1
    rw [h, Nat.add_sub_cancel]
  refine ⟨?_, ?_, ?_⟩
  · unfold requestedPages
    rw [hLz, hfetch, List.map_map]
    simp only [Function.comp_def]
    simp
  · unfold requestedPages
    rw [hLz, hfetch, List.map_map]
    simp
  · unfold extract_popular_movies
    rw [hLz, hfetch, List.map_map]
    rfl

/-- Witness for `c5_pagination_bound`: the spec's own scenario, a server
reporting `total_pages = 3` and a caller requesting 10 pages — exactly pages
`[1, 2, 3]` are requested. -/
theorem c5_pagination_bound_witness :
    requestedPages (fun _ => ⟨[⟨some 1, 0⟩], 3⟩) (some 10) 20
        = List.range' 1 (Nat.min 10 (Nat.max 3 1))
    ∧ (requestedPages (fun _ => ⟨[⟨some 1, 0⟩], 3⟩) (some 10) 20).length
        = Nat.min 10 (Nat.max 3 1)
    ∧ extract_popular_movies (fun _ => ⟨[⟨some 1, 0⟩], 3⟩) (some 10) 20
        = ((List.range' 1 (Nat.min 10 (Nat.max 3 1))).map
            (fun p => ((fun (_ : Nat) => (⟨[⟨some 1, 0⟩], 3⟩ : ListPage)) p).results)).flatten :=
  c5_pagination_bound (fun _ => ⟨[⟨some 1, 0⟩], 3⟩) 3 10 20 (fun _ => rfl) (by decide)

/-- C5 counterexample to the claim as stated: when the listing endpoint
reports `total_pages = 0` and the caller requests 10 pages, the code issues
1 listing request (page 1 is fetched before the stop check), not
`min(10, 0) = 0`. -/
theorem c5_counterexample :
    (requestedPages (fun _ => ⟨[], 0⟩) (some 10) 20).length ≠ Nat.min 10 0 := by
  decide

/-- C9: `extract_popular_movies(pages=0)` and `run_pipeline(pages=0)` behave
exactly like the no-override call — the value 0 is replaced by the configured
default page count (`pages or self.config.pages_to_fetch`), and with any
positive configured default the page-request list is non-empty, so a caller
cannot request an empty extraction via `pages=0`. -/
theorem c9_zero_pages_replaced_by_default :
    (∀ cfg, pagesToFetch (some 0) cfg = cfg ∧ pagesToFetch none cfg = cfg)
    ∧ (∀ server cfg, requestedPages server (some 0) cfg = requestedPages server none cfg)
    ∧ (∀ server cfg,
        extract_popular_movies server (some 0) cfg = extract_popular_movies server none cfg)
    ∧ (∀ genres server detailOf cfg bs dryRun ing bid mt gt,
        run_pipeline genres server detailOf (some 0) cfg bs dryRun ing bid mt gt
          = run_pipeline genres server detailOf none cfg bs dryRun ing bid mt gt)
    ∧ (∀ server cfg, requestedPages server (some 0) (cfg + 1) ≠ []) := by
  refine ⟨fun cfg => ⟨rfl, rfl⟩, fun server cfg => rfl, fun server cfg => rfl,
    fun genres server detailOf cfg bs dryRun ing bid mt gt => rfl, ?_⟩
  intro server cfg
  simp [requestedPages, pagesToFetch, popularFetch]
/-- C10: `run_pipeline` always reports `pages_fetched` as the requested page
count (`pages or cfg.tmdb.pages_to_fetch`), never as the number of listing
pages actually retrieved: with a server reporting `total_pages = 3` and a
request for 10 pages, the returned statistics say `pages_fetched = 10` while
only 3 listing requests were issued. -/
theorem c10_pages_fetched_overstated :
    (∀ genres server detailOf pages cfgPages bs dryRun ing bid mt gt,
      match run_pipeline genres server detailOf pages cfgPages bs dryRun ing bid mt gt with
      | .ok r => r.1.pages_fetched = pagesToFetch pages cfgPages
      | .error _ => True)
    ∧ (run_pipeline [1] (fun p => ⟨[⟨some p, 0⟩], 3⟩) (fun k => .ok ⟨k, 0⟩)
          (some 10) 20 100 false 5 6 [] []).map (fun r => r.1.pages_fetched) = .ok 10
    ∧ (requestedPages (fun p => ⟨[⟨some p, 0⟩], 3⟩) (some 10) 20).length = 3
    ∧ (10 : Nat) ≠ 3 := by
  refine ⟨?_, by rfl, by decide, by decide⟩
  intro genres server detailOf pages cfgPages bs dryRun ing bid mt gt
  simp only [run_pipeline]
  cases hext : (extract_movies_with_details server detailOf
      (some (pagesToFetch pages cfgPages)) cfgPages).2.2 with
  | some e => simp
  | none => cases dryRun <;> simp
/-- Invariant of the enrichment loop: assuming the detail endpoint answers a
request for key `k` with a record whose identifier is `k`, then (i) every
detail key fetched was not yet in `seen_ids`, (ii) no detail key is fetched
twice, and (iii) the identifiers of the yielded records form a sublist of the
fetched keys. -/
theorem detailsGo_inv (detailOf : Option Nat → Except Raised Movie)
    (hd : ∀ k m, detailOf k = .ok m → m.id = k) :
    ∀ (stubs : List Movie) (seen : List (Option Nat)),
      (∀ k ∈ (detailsGo detailOf stubs seen).2.1, k ∉ seen)
      ∧ (detailsGo detailOf stubs seen).2.1.Nodup
      ∧ ((detailsGo detailOf stubs seen).1.map Movie.id).Sublist
          (detailsGo detailOf stubs seen).2.1 := by
  intro stubs
  induction stubs with
  | nil =>
    intro seen
    refine ⟨?_, ?_, ?_⟩ <;> simp [detailsGo]
  | cons s rest ih =>
    intro seen
    by_cases hmem : s.id ∈ seen
    · have hgo : detailsGo detailOf (s :: rest) seen = detailsGo detailOf rest seen := by
        simp [detailsGo, hmem]
      rw [hgo]
      exact ih seen
    · cases hk : detailOf s.id with
      | ok d =>
        have hgo : detailsGo detailOf (s :: rest) seen =
            (d :: (detailsGo detailOf rest (s.id :: seen)).1,
             s.id :: (detailsGo detailOf rest (s.id :: seen)).2.1,
             (detailsGo detailOf rest (s.id :: seen)).2.2) := by
          simp [detailsGo, hmem, hk]
        rw [hgo]
        obtain ⟨ha, hb, hc⟩ := ih (s.id :: seen)
        refine ⟨?_, ?_, ?_⟩
        · intro k hkmem
          rcases List.mem_cons.mp hkmem with rfl | hkm
          · exact hmem
          · exact fun hks => ha k hkm (List.mem_cons_of_mem _ hks)
        · exact List.nodup_cons.mpr ⟨fun h => ha s.id h (List.mem_cons_self _ _), hb⟩
        · have hid : d.id = s.id := hd s.id d hk
          simp only [List.map_cons, hid]
          exact List.Sublist.cons₂ s.id hc
      | error e =>
        cases hcaught : caughtByHandler e with
        | true =>
          have hgo : detailsGo detailOf (s :: rest) seen =
              ((detailsGo detailOf rest (s.id :: seen)).1,
               s.id :: (detailsGo detailOf rest (s.id :: seen)).2.1,
               (detailsGo detailOf rest (s.id :: seen)).2.2) := by
            simp [detailsGo, hmem, hk, hcaught]
          rw [hgo]
          obtain ⟨ha, hb, hc⟩ := ih (s.id :: seen)
          refine ⟨?_, ?_, ?_⟩
          · intro k hkmem
            rcases List.mem_cons.mp hkmem with rfl | hkm
            · exact hmem
            · exact fun hks => ha k hkm (List.mem_cons_of_mem _ hks)
          · exact List.nodup_cons.mpr ⟨fun h => ha s.id h (List.mem_cons_self _ _), hb⟩
          · exact List.Sublist.cons s.id hc
        | false =>
          have hgo : detailsGo detailOf (s :: rest) seen = ([], [s.id], some e) := by
            simp [detailsGo, hmem, hk, hcaught]
          rw [hgo]
          refine ⟨?_, by simp, by simp⟩
          intro k hkmem
          rcases List.mem_singleton.mp hkmem with rfl
          exact hmem

/-- C2: for every sequence of listing pages, every detail endpoint that
answers a request for identifier `k` with a record carrying identifier `k`,
and every page limit, the stream produced by `extract_movies_with_details`
yields no two records with the same identifier, and no identifier is
detail-fetched twice (a reappearing identifier is skipped via `seen_ids` and
never re-yielded). -/
theorem c2_dedup_invariant (server : Nat → ListPage)
    (detailOf : Option Nat → Except Raised Movie) (pages : Option Nat) (cfgPages : Nat)
    (hd : ∀ k m, detailOf k = .ok m → m.id = k) :
    ((extract_movies_with_details server detailOf pages cfgPages).1.map Movie.id).Nodup
    ∧ (extract_movies_with_details server detailOf pages cfgPages).2.1.Nodup := by
  obtain ⟨ha, hb, hc⟩ :=
    detailsGo_inv detailOf hd (extract_popular_movies server pages cfgPages) []
  exact ⟨List.Nodup.sublist hc hb, hb⟩

/-- Witness for `c2_dedup_invariant`: two listing pages where identifier 1
appears three times (twice on page 1 and again on page 2) — the stream still
yields pairwise-distinct identifiers. -/
theorem c2_dedup_invariant_witness :
    ((extract_movies_with_details
        (fun p => if p = 1 then ⟨[⟨some 1, 0⟩, ⟨some 1, 1⟩], 2⟩
                  else ⟨[⟨some 1, 2⟩, ⟨some 2, 0⟩], 2⟩)
        (fun k => .ok ⟨k, 9⟩) (some 2) 20).1.map Movie.id).Nodup
    ∧ (extract_movies_with_details
        (fun p => if p = 1 then ⟨[⟨some 1, 0⟩, ⟨some 1, 1⟩], 2⟩
                  else ⟨[⟨some 1, 2⟩, ⟨some 2, 0⟩], 2⟩)
        (fun k => .ok ⟨k, 9⟩) (some 2) 20).2.1.Nodup :=
  c2_dedup_invariant
    (fun p => if p = 1 then ⟨[⟨some 1, 0⟩, ⟨some 1, 1⟩], 2⟩
              else ⟨[⟨some 1, 2⟩, ⟨some 2, 0⟩], 2⟩)
    (fun k => .ok ⟨k, 9⟩) (some 2) 20 (fun k m h => by cases h; rfl)
/-- The batch parameter tuples distribute over list append. -/
theorem movieRows_append (ing bid : Nat) (xs ys : List Movie) :
    movieRows ing bid (xs ++ ys) = movieRows ing bid xs ++ movieRows ing bid ys := by
  unfold movieRows
  rw [List.filter_append, List.map_append]

/-- With a positive batch size the batch loop of `load_movies` processes the
filtered rows of the whole input in arrival order: batching does not change
which merges are executed or their order. -/
theorem load_movies_go_eq_flat (ing bid bs : Nat) (hbs : 1 ≤ bs) :
    ∀ fuel ms st, ms.length ≤ fuel →
      load_movies_go ing bid bs fuel ms st = (movieRows ing bid ms).foldl loadRowsStep st := by
  intro fuel
  induction fuel with
  | zero =>
    intro ms st hlen
    have hnil : ms = [] := List.length_eq_zero.mp (Nat.le_zero.mp hlen)
    subst hnil
    simp [load_movies_go, movieRows]
  | succ f ih =>
    intro ms st hlen
    cases ms with
    | nil => simp [load_movies_go, movieRows]
    | cons m ms' =>
      have hgo : load_movies_go ing bid bs (f + 1) (m :: ms') st
          = load_movies_go ing bid bs f ((m :: ms').drop bs)
              ((movieRows ing bid ((m :: ms').take bs)).foldl loadRowsStep st) := by
        simp [load_movies_go]
      rw [hgo, ih ((m :: ms').drop bs) _ ?hdrop]
      · rw [← List.foldl_append, ← movieRows_append, List.take_append_drop]
      case hdrop =>
        rw [List.length_drop]
        simp only [List.length_cons] at hlen ⊢
        omega

/-- `load_movies` as the flat per-row merge fold over the usable rows. -/
theorem load_movies_eq_flat (ms : List Movie) (ing bid bs : Nat) (hbs : 1 ≤ bs)
    (t : List MovieRow) :
    load_movies ms ing bid bs t = (movieRows ing bid ms).foldl loadRowsStep (t, 0) := by
  unfold load_movies
  by_cases h : ms = []
  · subst h
    simp [movieRows]
  · rw [if_neg h]
    exact load_movies_go_eq_flat ing bid bs hbs ms.length ms (t, 0) le_rfl

/-- The per-row loop splits into the table fold and the row count. -/
theorem foldl_loadRowsStep_spec (rs : List MovieRow) :
    ∀ t n, rs.foldl loadRowsStep (t, n) = (rs.foldl mergeRow t, n + rs.length) := by
  induction rs with
  | nil => intro t n; simp
  | cons r rs' ih =>
    intro t n
    rw [List.foldl_cons, List.foldl_cons]
    show rs'.foldl loadRowsStep (mergeRow t r, n + 1) = _
    rw [ih (mergeRow t r) (n + 1), Prod.mk.injEq]
    exact ⟨rfl, by simp; omega⟩

/-- A merge whose key is absent from the table appends the row. -/
theorem mergeRow_not_mem (t : List MovieRow) (r : MovieRow)
    (h : r.movie_id ∉ t.map MovieRow.movie_id) : mergeRow t r = t ++ [r] := by
  unfold mergeRow
  rw [if_neg]
  intro hc
  rw [List.any_eq_true] at hc
  obtain ⟨row, hrow, heq⟩ := hc
  exact h (List.mem_map.mpr ⟨row, hrow, by simpa using heq⟩)

/-- Merging rows whose keys are all fresh and pairwise distinct appends them
in order (the insert-only run of `load_movies`). -/
theorem foldl_mergeRow_fresh : ∀ (rs t : List MovieRow),
    (∀ r ∈ rs, r.movie_id ∉ t.map MovieRow.movie_id)
    → (rs.map MovieRow.movie_id).Nodup
    → rs.foldl mergeRow t = t ++ rs := by
  intro rs
  induction rs with
  | nil => intro t _ _; simp
  | cons r rs' ih =>
    intro t hfresh hnd
    have hnd' : (∀ x ∈ rs', ¬x.movie_id = r.movie_id)
        ∧ (rs'.map MovieRow.movie_id).Nodup := by simpa using hnd
    have h1 : mergeRow t r = t ++ [r] :=
      mergeRow_not_mem t r (hfresh r (List.mem_cons_self _ _))
    rw [List.foldl_cons, h1, ih (t ++ [r]) ?fresh hnd'.2]
    · simp
    case fresh =>
      intro r' hr'
      rw [List.map_append, List.mem_append]
      rintro (hin | hin)
      · exact hfresh r' (List.mem_cons_of_mem _ hr') hin
      · simp only [List.map_cons, List.map_nil, List.mem_singleton] at hin
        exact hnd'.1 r' hr' hin
/-- Merging a run of rows whose keys positionally equal the keys of the
table's tail `t1` (all table keys distinct) overwrites `t1` row by row and
leaves the prefix untouched: the update-only second run of `load_movies`. -/
theorem foldl_mergeRow_update : ∀ (rs pre t1 : List MovieRow),
    t1.map MovieRow.movie_id = rs.map MovieRow.movie_id
    → ((pre ++ t1).map MovieRow.movie_id).Nodup
    → rs.foldl mergeRow (pre ++ t1) = pre ++ rs := by
  intro rs
  induction rs with
  | nil =>
    intro pre t1 hmap _
    have hnil : t1 = [] := by simpa using hmap
    subst hnil
    simp
  | cons r rs' ih =>
    intro pre t1 hmap hnd
    cases t1 with
    | nil => simp at hmap
    | cons a t1' =>
      simp only [List.map_cons] at hmap
      injection hmap with hida hmap'
      have hndids : (pre.map MovieRow.movie_id
          ++ a.movie_id :: t1'.map MovieRow.movie_id).Nodup := by
        have := hnd
        rwa [List.map_append, List.map_cons] at this
      have hsplit := List.nodup_append.mp hndids
      have hpre_ne : ∀ row ∈ pre, row.movie_id ≠ r.movie_id := by
        intro row hrow heq
        exact hsplit.2.2 (List.mem_map_of_mem _ hrow)
          (by rw [heq, ← hida]; exact List.mem_cons_self _ _)
      have ht1_ne : ∀ row ∈ t1', row.movie_id ≠ r.movie_id := by
        intro row hrow heq
        have hcons := List.nodup_cons.mp hsplit.2.1
        exact hcons.1 (hida.symm ▸ heq ▸ List.mem_map_of_mem MovieRow.movie_id hrow)
      have hmerge : mergeRow (pre ++ a :: t1') r = pre ++ r :: t1' := by
        unfold mergeRow
        rw [if_pos (List.any_eq_true.mpr ⟨a, by simp, by simp [hida]⟩)]
        rw [List.map_append, List.map_cons]
        have hpre : pre.map (fun row => if row.movie_id = r.movie_id then r else row)
            = pre := by
          have hcg : pre.map (fun row => if row.movie_id = r.movie_id then r else row)
              = pre.map id :=
            List.map_congr_left (fun x hx => by rw [if_neg (hpre_ne x hx)]; rfl)
          rw [hcg, List.map_id]
        have ht1 : t1'.map (fun row => if row.movie_id = r.movie_id then r else row)
            = t1' := by
          have hcg : t1'.map (fun row => if row.movie_id = r.movie_id then r else row)
              = t1'.map id :=
            List.map_congr_left (fun x hx => by rw [if_neg (ht1_ne x hx)]; rfl)
          rw [hcg, List.map_id]
        rw [hpre, ht1, if_pos hida]
      rw [List.foldl_cons, hmerge]
      have hre : pre ++ r :: t1' = (pre ++ [r]) ++ t1' := by simp
      rw [hre, ih (pre ++ [r]) t1' hmap' ?nodup]
      · simp
      case nodup =>
        have hsame : ((pre ++ [r]) ++ t1').map MovieRow.movie_id
            = (pre ++ a :: t1').map MovieRow.movie_id := by
          simp [hida]
        rw [hsame]
        exact hnd
/-- The keys of the built parameter rows are the usable identifiers of the
input records, in order. -/
theorem movieRows_map_id (ing bid : Nat) (ms : List Movie) :
    (movieRows ing bid ms).map MovieRow.movie_id
      = (ms.filter hasUsableId).map (fun m => m.id.getD 0) := by
  unfold movieRows
  rw [List.map_map]
  rfl

/-- Records with pairwise-distinct identifiers, all usable, have
pairwise-distinct key values. -/
theorem usable_ids_nodup (ms : List Movie) (hid : ∀ m ∈ ms, hasUsableId m = true)
    (hnd : (ms.map Movie.id).Nodup) :
    (ms.map (fun m => m.id.getD 0)).Nodup := by
  have hsplit : ms.map (fun m => m.id.getD 0)
      = (ms.map Movie.id).map (fun o => o.getD 0) := by
    rw [List.map_map]
    rfl
  rw [hsplit]
  refine List.Nodup.map_on ?_ hnd
  intro x hx y hy hxy
  obtain ⟨mx, hmx, hxeq⟩ := List.mem_map.mp hx
  obtain ⟨my, hmy, hyeq⟩ := List.mem_map.mp hy
  have hux := hid mx hmx
  have huy := hid my hmy
  subst hxeq
  subst hyeq
  unfold hasUsableId at hux huy
  cases hmx2 : mx.id with
  | none => rw [hmx2] at hux; simp at hux
  | some nx =>
    cases hmy2 : my.id with
    | none => rw [hmy2] at huy; simp at huy
    | some ny =>
      rw [hmx2, hmy2] at hxy
      simpa using hxy

/-- Every row built by `movieRows` carries this run's metadata. -/
theorem movieRows_meta (ing bid : Nat) (ms : List Movie) :
    ∀ row ∈ movieRows ing bid ms, row.ingested_at = ing ∧ row.batch_id = bid := by
  intro row hrow
  unfold movieRows at hrow
  obtain ⟨m, _, rfl⟩ := List.mem_map.mp hrow
  exact ⟨rfl, rfl⟩
/-- C1 (amended): for records carrying pairwise-distinct truthy identifiers
(present and non-zero — the code's usability criterion `if movie.get("id")`),
running `load_movies` twice against the same landing table starting empty
leaves exactly N rows — the same end state as a single clean second run —
with one row per identifier; the second run reports N upserts and every
surviving row carries the second run's ingestion time and run id. -/
theorem c1_load_idempotent (ms : List Movie) (i1 b1 i2 b2 bs : Nat)
    (hbs : 1 ≤ bs)
    (hid : ∀ m ∈ ms, hasUsableId m = true)
    (hnd : (ms.map Movie.id).Nodup) :
    load_movies ms i2 b2 bs (load_movies ms i1 b1 bs []).1
        = ((load_movies ms i2 b2 bs []).1, ms.length)
    ∧ (load_movies ms i2 b2 bs (load_movies ms i1 b1 bs []).1).1.length = ms.length
    ∧ ((load_movies ms i2 b2 bs (load_movies ms i1 b1 bs []).1).1.map
        MovieRow.movie_id).Nodup
    ∧ (load_movies ms i1 b1 bs []).2 = ms.length
    ∧ ∀ row ∈ (load_movies ms i2 b2 bs (load_movies ms i1 b1 bs []).1).1,
        row.ingested_at = i2 ∧ row.batch_id = b2 := by
  have hfilter : ms.filter hasUsableId = ms := List.filter_eq_self.mpr hid
  have hids1 : (movieRows i1 b1 ms).map MovieRow.movie_id
      = ms.map (fun m => m.id.getD 0) := by rw [movieRows_map_id, hfilter]
  have hids2 : (movieRows i2 b2 ms).map MovieRow.movie_id
      = ms.map (fun m => m.id.getD 0) := by rw [movieRows_map_id, hfilter]
  have hidnd := usable_ids_nodup ms hid hnd
  have hlen1 : (movieRows i1 b1 ms).length = ms.length := by
    have hl := congrArg List.length hids1
    simpa using hl
  have hlen2 : (movieRows i2 b2 ms).length = ms.length := by
    have hl := congrArg List.length hids2
    simpa using hl
  have hrun1 : load_movies ms i1 b1 bs [] = (movieRows i1 b1 ms, ms.length) := by
    rw [load_movies_eq_flat ms i1 b1 bs hbs [], foldl_loadRowsStep_spec,
      foldl_mergeRow_fresh (movieRows i1 b1 ms) [] (by simp)
        (by rw [hids1]; exact hidnd)]
    simp [hlen1]
  have hrun2e : load_movies ms i2 b2 bs [] = (movieRows i2 b2 ms, ms.length) := by
    rw [load_movies_eq_flat ms i2 b2 bs hbs [], foldl_loadRowsStep_spec,
      foldl_mergeRow_fresh (movieRows i2 b2 ms) [] (by simp)
        (by rw [hids2]; exact hidnd)]
    simp [hlen2]
  have hrun2 : load_movies ms i2 b2 bs (movieRows i1 b1 ms)
      = (movieRows i2 b2 ms, ms.length) := by
    rw [load_movies_eq_flat ms i2 b2 bs hbs _, foldl_loadRowsStep_spec]
    have hupd := foldl_mergeRow_update (movieRows i2 b2 ms) [] (movieRows i1 b1 ms)
      (by rw [hids1, hids2]) (by simp only [List.nil_append]; rw [hids1]; exact hidnd)
    simp only [List.nil_append] at hupd
    rw [hupd]
    simp [hlen2]
  have h1 : (load_movies ms i1 b1 bs []).1 = movieRows i1 b1 ms := by rw [hrun1]
  have h1c : (load_movies ms i1 b1 bs []).2 = ms.length := by rw [hrun1]
  rw [h1, hrun2, hrun2e]
  refine ⟨rfl, ?_, ?_, h1c, ?_⟩
  · exact hlen2
  · show ((movieRows i2 b2 ms).map MovieRow.movie_id).Nodup
    rw [hids2]
    exact hidnd
  · exact movieRows_meta i2 b2 ms

/-- Witness for `c1_load_idempotent`: two records with distinct non-zero
identifiers loaded twice leave exactly 2 rows, the clean-run state. -/
theorem c1_load_idempotent_witness :
    load_movies [⟨some 1, 10⟩, ⟨some 2, 20⟩] 3 4 100
        (load_movies [⟨some 1, 10⟩, ⟨some 2, 20⟩] 1 2 100 []).1
        = ((load_movies [⟨some 1, 10⟩, ⟨some 2, 20⟩] 3 4 100 []).1, 2)
    ∧ (load_movies [⟨some 1, 10⟩, ⟨some 2, 20⟩] 3 4 100
        (load_movies [⟨some 1, 10⟩, ⟨some 2, 20⟩] 1 2 100 []).1).1.length = 2
    ∧ ((load_movies [⟨some 1, 10⟩, ⟨some 2, 20⟩] 3 4 100
        (load_movies [⟨some 1, 10⟩, ⟨some 2, 20⟩] 1 2 100 []).1).1.map
          MovieRow.movie_id).Nodup
    ∧ (load_movies [⟨some 1, 10⟩, ⟨some 2, 20⟩] 1 2 100 []).2 = 2
    ∧ ∀ row ∈ (load_movies [⟨some 1, 10⟩, ⟨some 2, 20⟩] 3 4 100
        (load_movies [⟨some 1, 10⟩, ⟨some 2, 20⟩] 1 2 100 []).1).1,
        row.ingested_at = 3 ∧ row.batch_id = 4 :=
  c1_load_idempotent [⟨some 1, 10⟩, ⟨some 2, 20⟩] 1 2 3 4 100
    (by decide) (by decide) (by decide)

/-- C1 counterexample to the claim as stated: the single record `{"id": 0}`
carries a (distinct) identifier, yet two runs leave 0 rows in the landing
table, not 1 — Python's truthiness test `if movie.get("id")` drops a zero
identifier before the merge. -/
theorem c1_counterexample :
    (load_movies [⟨some 0, 5⟩] 3 4 100
      (load_movies [⟨some 0, 5⟩] 1 2 100 []).1).1.length ≠ 1 := by
  decide
/-- C6 counterexample to the claim as stated: the statistics dict returned by
`run_pipeline` has exactly the fields start_time, pages_fetched,
movies_extracted, genres_extracted, movies_loaded, genres_loaded, errors,
duration_seconds — no skipped_count.  After a run where detail-fetch fails
(non-retryably) for 1 of 20 list items, the full record is
`⟨0, 1, 19, 3, 19, 1, 0, 0⟩`: `movies_extracted = 19` and the run completes,
but the only failure-shaped field, `errors`, is 0 and does not reflect the
skipped item. -/
theorem c6_stats_counterexample :
    (run_pipeline [7, 8, 9]
        (fun _ => ⟨(List.range 20).map (fun k => ⟨some (k + 1), 0⟩), 1⟩)
        (fun k => if k = some 13 then .error (.exc .valueError) else .ok ⟨k, 5⟩)
        (some 1) 20 100 false 1 2 [] []).map (fun r => r.1)
      = .ok ⟨0, 1, 19, 3, 19, 1, 0, 0⟩ := by
  rfl

/-- C6 (amended): the statistics record carries an `errors` field that is
initialised to 0 and never updated, so no statistics field reflects per-item
skips; in the 1-of-20 partial-failure scenario the run still completes with
`movies_extracted = 19` (and 19 rows loaded); and records lacking a usable
identifier are excluded from the count `load_movies` returns. -/
theorem c6_no_skip_statistic :
    (∀ genres server detailOf pages cfgPages bs dryRun ing bid mt gt,
      match run_pipeline genres server detailOf pages cfgPages bs dryRun ing bid mt gt with
      | .ok r => r.1.errors = 0
      | .error _ => True)
    ∧ (run_pipeline [7, 8, 9]
        (fun _ => ⟨(List.range 20).map (fun k => ⟨some (k + 1), 0⟩), 1⟩)
        (fun k => if k = some 13 then .error (.exc .valueError) else .ok ⟨k, 5⟩)
        (some 1) 20 100 false 1 2 [] []).map
          (fun r => (r.1.movies_extracted, r.1.movies_loaded, r.1.errors))
        = .ok (19, 19, 0)
    ∧ (∀ ms ing bid bsm t,
        (load_movies ms ing bid (bsm + 1) t).2 = (ms.filter hasUsableId).length) := by
  refine ⟨?_, by rfl, ?_⟩
  · intro genres server detailOf pages cfgPages bs dryRun ing bid mt gt
    simp only [run_pipeline]
    cases hext : (extract_movies_with_details server detailOf
        (some (pagesToFetch pages cfgPages)) cfgPages).2.2 with
    | some e => simp
    | none => cases dryRun <;> simp
  · intro ms ing bid bsm t
    rw [load_movies_eq_flat ms ing bid (bsm + 1) (by omega) t, foldl_loadRowsStep_spec]
    simp [movieRows]

/-- C8: `load_genres` is a no-op returning 0 on an empty reference list, and
otherwise appends exactly one snapshot row holding the entire list tagged
with this run's identifier and returns 1; being append-only, two runs over
the same list leave two rows, each tagged with its own run identifier. -/
theorem c8_reference_snapshot (gs : List Genre) (t : List GenreRow) (i1 b1 i2 b2 : Nat)
    (hgs : gs ≠ []) :
    load_genres [] i1 b1 t = (t, 0)
    ∧ load_genres gs i1 b1 t = (t ++ [⟨gs, i1, b1⟩], 1)
    ∧ load_genres gs i2 b2 (load_genres gs i1 b1 t).1
        = (t ++ [⟨gs, i1, b1⟩, ⟨gs, i2, b2⟩], 1)
    ∧ (load_genres gs i2 b2 (load_genres gs i1 b1 t).1).1.length = t.length + 2 := by
  refine ⟨rfl, by simp [load_genres, hgs], by simp [load_genres, hgs], ?_⟩
  simp [load_genres, hgs]

/-- Witness for `c8_reference_snapshot`: a one-entry reference list loaded
twice on an empty snapshot table leaves two tagged rows. -/
theorem c8_reference_snapshot_witness :
    load_genres [] 1 2 [] = ([], 0)
    ∧ load_genres [3] 1 2 [] = ([⟨[3], 1, 2⟩], 1)
    ∧ load_genres [3] 4 5 (load_genres [3] 1 2 []).1
        = ([⟨[3], 1, 2⟩, ⟨[3], 4, 5⟩], 1)
    ∧ (load_genres [3] 4 5 (load_genres [3] 1 2 []).1).1.length = 2 :=
  c8_reference_snapshot [3] [] 1 2 4 5 (by decide)
